/-
  Verification of the uscope.hpp micro-benchmark library against its design
  specification.

  The development shallowly embeds the two source files:
  - src/uscope.hpp : the BenchmarkState iteration-control state machine.
    Machine integers (int64_t) are modelled as ℤ; the steady clock is
    modelled as an ambient sequence `c : ℕ → ℤ` of nanosecond readings,
    indexed by a `reads` counter stored in the state (the i-th call to
    steady_clock::now() returns `c i`).
  - src/gbench-example.cpp : the magnitude formatter and console reporter.
    IEEE doubles are modelled as exact rationals ℚ; the decimal renderings
    of std::format / std::stringstream are modelled by executable string
    builders over ℚ (fixed, scientific and general presentation with
    round-half-to-even, ignoring binary double rounding).
-/
import Mathlib

set_option maxRecDepth 4000

/- ## Decimal digit and string helpers -/

/-- Decimal digits of `n`, most significant first (empty for 0);
structural fuel recursion. -/
def natDigitsAux : ℕ → ℕ → List Char
  | 0, _ => []
  | _ + 1, 0 => []
  | fuel + 1, n => natDigitsAux fuel (n / 10) ++ [Char.ofNat (48 + n % 10)]

/-- Decimal digit characters of `n`, most significant first; `"0"` for 0. -/
def natChars (n : ℕ) : List Char :=
  if n = 0 then ['0'] else natDigitsAux (n + 1) n

def natStr (n : ℕ) : String := ⟨natChars n⟩

/-- Number of decimal digits of `n`. -/
def natLen (n : ℕ) : ℕ := (natChars n).length

def intChars (i : ℤ) : List Char :=
  (if i < 0 then ['-'] else []) ++ natChars i.natAbs

def intStr (i : ℤ) : String := ⟨intChars i⟩

/-- Left-pad with spaces to width `w` (no truncation), as std::format
right-alignment does. -/
def lpad (w : ℕ) (s : String) : String :=
  ⟨List.replicate (w - s.length) ' ' ++ s.data⟩

/-- Right-pad with spaces to width `w` (no truncation), as std::format
left-alignment does. -/
def rpad (w : ℕ) (s : String) : String :=
  ⟨s.data ++ List.replicate (w - s.length) ' '⟩

/- ## Exact-rational models of C++ floating-point decimal rendering -/

/-- Round to nearest integer, ties to even: the rounding applied when a
double is rendered in decimal. -/
def rqHalfEven (q : ℚ) : ℤ :=
  let f := ⌊q⌋
  if q - f < 1/2 then f
  else if 1/2 < q - f then f + 1
  else if f % 2 = 0 then f else f + 1

/-- 10^e over ℚ for an integer exponent. -/
def zpow10 (e : ℤ) : ℚ :=
  if 0 ≤ e then ((10 : ℚ) ^ e.toNat) else 1 / ((10 : ℚ) ^ (-e).toNat)

/-- Model of std::format fixed presentation `{:.[prec]f}`: sign, integer
part, point, exactly `prec` fractional digits. -/
def fixedStr (q : ℚ) (prec : ℕ) : String :=
  let n := (rqHalfEven (|q| * 10 ^ prec)).toNat
  let ds := natChars n
  let ds := List.replicate (prec + 1 - ds.length) '0' ++ ds
  let ip := ds.take (ds.length - prec)
  let fp := ds.drop (ds.length - prec)
  ⟨(if q < 0 then ['-'] else []) ++ ip ++ (if prec = 0 then [] else '.' :: fp)⟩

/-- Least `k` (starting from the given accumulator) with `1 ≤ v * 10 ^ k`,
searched with fuel. -/
def sciExpSmallAux (v : ℚ) : ℕ → ℕ → ℕ
  | 0, k => k
  | fuel + 1, k => if 1 ≤ v * 10 ^ k then k else sciExpSmallAux v fuel (k + 1)

/-- Decimal exponent of `q` (largest `e` with `10^e ≤ |q|`); junk at 0,
callers treat 0 separately. -/
def sciExp (q : ℚ) : ℤ :=
  if |q| < 1 then -(sciExpSmallAux |q| (natLen q.den + 1) 1 : ℤ)
  else (natLen (⌊|q|⌋).toNat : ℤ) - 1

/-- Model of std::format scientific presentation `{:.[prec]e}`, split into
mantissa part and exponent part (e.g. `("1.0000", "e+12")`). -/
def sciParts (q : ℚ) (prec : ℕ) : String × String :=
  if q = 0 then
    (⟨'0' :: (if prec = 0 then [] else '.' :: List.replicate prec '0')⟩, "e+00")
  else
    let e0 := sciExp q
    let d0 := (rqHalfEven (|q| / zpow10 e0 * 10 ^ prec)).toNat
    let p := if d0 = 10 ^ (prec + 1) then (10 ^ prec, e0 + 1) else (d0, e0)
    let ds := natChars p.1
    let mant := (if q < 0 then ['-'] else [])
      ++ ds.take 1 ++ (if prec = 0 then [] else '.' :: ds.drop 1)
    let es := natChars p.2.natAbs
    let es := List.replicate (2 - es.length) '0' ++ es
    (⟨mant⟩, ⟨'e' :: (if p.2 < 0 then '-' else '+') :: es⟩)

def sciStr (q : ℚ) (prec : ℕ) : String :=
  (sciParts q prec).1 ++ (sciParts q prec).2

/-- Drop trailing zeros after a decimal point, then a trailing point, as
the C++ general floating presentation does. -/
def stripTrailZeros (l : List Char) : List Char :=
  if l.contains '.' then
    let r := l.reverse.dropWhile (fun ch => ch = '0')
    let r2 := match r with
      | '.' :: t => t
      | other => other
    r2.reverse
  else l

/-- Model of the C++ general floating presentation (std::format `{:.[p]}` on
a double, and std::stringstream default output with p = 6): precision 0 is
taken as 1; fixed presentation with trailing zeros stripped when the decimal
exponent `e` satisfies `-4 ≤ e < p`, scientific otherwise.  (The exponent of
the exact value is used; double-rounding edge cases are not modelled.) -/
def genStr (q : ℚ) (prec0 : ℕ) : String :=
  let p := max prec0 1
  if q = 0 then "0"
  else
    let e := sciExp q
    if -4 ≤ e ∧ e < (p : ℤ) then
      ⟨stripTrailZeros (fixedStr q ((p : ℤ) - 1 - e).toNat).data⟩
    else
      let m := sciParts q (p - 1)
      ⟨stripTrailZeros m.1.data⟩ ++ m.2

/-- Model of streaming a double to a std::stringstream (default precision
6, general presentation). -/
def streamDouble (q : ℚ) : String := genStr q 6

/- ## Embedding of src/uscope.hpp : BenchmarkState -/

/-- BenchmarkState::State (uscope.hpp lines 58-63). -/
inductive State : Type
  | NotStarted
  | Started
  | Finished
  | Skipped
deriving DecidableEq

/-- The fields of uscope::BenchmarkState (uscope.hpp lines 65-70).
`begin_t`/`end_t` are the `begin_`/`end_` time points (default-initialised
to the clock epoch, modelled as 0); `reads` counts the
steady_clock::now() invocations made so far, so that the ambient clock
sequence can be indexed deterministically. -/
structure BenchmarkState : Type where
  total_iterations : ℤ
  remaining_iterations : ℤ
  state : State
  begin_t : ℤ
  end_t : ℤ
  iterations_time : List ℤ
  reads : ℕ
deriving DecidableEq

/-- The constructor BenchmarkState(iteration_count) (uscope.hpp lines
19-24); the vector reserve call has no observable effect on the contents. -/
def BenchmarkState.init (iteration_count : ℤ) : BenchmarkState :=
  { total_iterations := iteration_count
    remaining_iterations := iteration_count
    state := State.NotStarted
    begin_t := 0
    end_t := 0
    iterations_time := []
    reads := 0 }

/-- The tail of keep_running() after the switch (uscope.hpp lines 44-49):
`bool should_run = remaining_iterations_-- > 0; if (!should_run) state_ =
Finished; begin_ = now(); return should_run;`. -/
def stepCommon (c : ℕ → ℤ) (s : BenchmarkState) : Bool × BenchmarkState :=
  if 0 < s.remaining_iterations then
    (true, { s with remaining_iterations := s.remaining_iterations - 1
                    begin_t := c s.reads
                    reads := s.reads + 1 })
  else
    (false, { s with remaining_iterations := s.remaining_iterations - 1
                     state := State.Finished
                     begin_t := c s.reads
                     reads := s.reads + 1 })

/-- BenchmarkState::keep_running() (uscope.hpp lines 26-50), with the
ambient clock `c`.  Finished/Skipped return false immediately; NotStarted
transitions to Started; Started closes the previous interval by reading
the clock and appending `end - begin` in nanoseconds. -/
def keep_running (c : ℕ → ℤ) (s : BenchmarkState) : Bool × BenchmarkState :=
  match s.state with
  | State.Finished => (false, s)
  | State.Skipped => (false, s)
  | State.NotStarted => stepCommon c { s with state := State.Started }
  | State.Started =>
    let e := c s.reads
    stepCommon c { s with end_t := e
                          reads := s.reads + 1
                          iterations_time := s.iterations_time ++ [e - s.begin_t] }

/-- The state after `k` successive keep_running() calls. -/
def runK (c : ℕ → ℤ) (s : BenchmarkState) : ℕ → BenchmarkState
  | 0 => s
  | k + 1 => (keep_running c (runK c s k)).2

/-- The boolean returned by the `(k+1)`-th keep_running() call. -/
def callResult (c : ℕ → ℤ) (s : BenchmarkState) (k : ℕ) : Bool :=
  (keep_running c (runK c s k)).1

/-- uscope::BenchmarkState::remaining_iterations() (uscope.hpp lines
52-55). -/
def BenchmarkState.remaining (s : BenchmarkState) : ℤ := s.remaining_iterations

/-- A concrete strictly increasing clock used by witnesses and
counterexamples. -/
def cNat : ℕ → ℤ := fun i => (i : ℤ)

/- ## Embedding of src/gbench-example.cpp : formatter and reporter -/

/-- LogColor (gbench-example.cpp lines 10-19). -/
inductive LogColor : Type
  | DEFAULT
  | RED
  | GREEN
  | YELLOW
  | BLUE
  | MAGENTA
  | CYAN
  | WHITE
deriving DecidableEq

/-- GetAnsiColorCode (lines 21-41); nullptr is modelled as none. -/
def GetAnsiColorCode : LogColor → Option String
  | LogColor.RED => some "1"
  | LogColor.GREEN => some "2"
  | LogColor.YELLOW => some "3"
  | LogColor.BLUE => some "4"
  | LogColor.MAGENTA => some "5"
  | LogColor.CYAN => some "6"
  | LogColor.WHITE => some "7"
  | LogColor.DEFAULT => none

/-- benchmark::BigO values distinguished by GetBigOString (external enum;
the constructors not named in the switch are collapsed into the ones the
default case receives). -/
inductive BigO : Type
  | oNone
  | o1
  | oN
  | oNSquared
  | oNCubed
  | oLogN
  | oNLogN
  | oAuto
  | oLambda
deriving DecidableEq

/-- GetBigOString (lines 43-61). -/
def GetBigOString : BigO → String
  | BigO.oN => "N"
  | BigO.oNSquared => "N^2"
  | BigO.oNCubed => "N^3"
  | BigO.oLogN => "lgN"
  | BigO.oNLogN => "NlgN"
  | BigO.o1 => "(1)"
  | _ => "f(N)"

/-- FormatTime (lines 63-84): magnitude-dependent precision in a width-10
field; scientific `{:1.4e}` above 9999999999. -/
def FormatTime (time : ℚ) : String :=
  if time < 1 then lpad 10 (fixedStr time 3)
  else if time < 10 then lpad 10 (fixedStr time 2)
  else if time < 100 then lpad 10 (fixedStr time 1)
  else if 9999999999 < time then lpad 1 (sciStr time 4)
  else lpad 10 (fixedStr time 0)

/-- kBigSIUnits (line 86). -/
def kBigSIUnits : List String := ["k", "M", "G", "T", "P", "E", "Z", "Y"]

/-- kBigIECUnits (line 88). -/
def kBigIECUnits : List String := ["Ki", "Mi", "Gi", "Ti", "Pi", "Ei", "Zi", "Yi"]

/-- kSmallSIUnits (line 90). -/
def kSmallSIUnits : List String := ["m", "u", "n", "p", "f", "a", "z", "y"]

/-- kUnitsSize (line 92). -/
def kUnitsSize : ℤ := 8

/-- The result of ToExponentAndMantissa, with the mantissa kept as the
exact signed value streamed to the mantissa stream (its text rendering is
`streamDouble` of the absolute value, after the sign). -/
structure ExpMant : Type where
  mantissa : ℚ
  exponent : ℤ
deriving DecidableEq

/-- The positive-power loop of ToExponentAndMantissa (lines 117-127):
divide by `one_k` up to `fuel` times, returning the first scaled value
that is `≤ big` together with its 1-based exponent. -/
def bigLoopSI (one_k big : ℚ) : ℕ → ℚ → ℤ → Option (ℚ × ℤ)
  | 0, _, _ => none
  | fuel + 1, scaled, i =>
    let s2 := scaled / one_k
    if s2 ≤ big then some (s2, i) else bigLoopSI one_k big fuel s2 (i + 1)

/-- The negative-power loop of ToExponentAndMantissa (lines 132-142):
multiply by `one_k` up to `fuel` times, returning the first scaled value
that is `≥ small` together with its 1-based exponent magnitude. -/
def smallLoopSI (one_k small : ℚ) : ℕ → ℚ → ℤ → Option (ℚ × ℤ)
  | 0, _, _ => none
  | fuel + 1, scaled, i =>
    let s2 := scaled * one_k
    if small ≤ s2 then some (s2, i) else smallLoopSI one_k small fuel s2 (i + 1)

/-- ToExponentAndMantissa (lines 94-151), with the streamed mantissa kept
as an exact signed rational. -/
def ToExponentAndMantissa (val : ℚ) (precision : ℤ) (one_k : ℚ) : ExpMant :=
  let neg := val < 0
  let v := if val < 0 then -val else val
  let adjusted_threshold := max 1 (zpow10 (-precision))
  let big_threshold := adjusted_threshold * one_k - 1
  let small_threshold := adjusted_threshold
  let simple_threshold : ℚ := 1/100
  if big_threshold < v then
    match bigLoopSI one_k big_threshold 8 v 1 with
    | some si => ⟨if neg then -si.1 else si.1, si.2⟩
    | none => ⟨if neg then -v else v, 0⟩
  else if v < small_threshold then
    if v < simple_threshold then
      match smallLoopSI one_k small_threshold 8 v 1 with
      | some si => ⟨if neg then -si.1 else si.1, -si.2⟩
      | none => ⟨if neg then -v else v, 0⟩
    else ⟨if neg then -v else v, 0⟩
  else ⟨if neg then -v else v, 0⟩

/-- ExponentToPrefix (gbench-example.cpp lines 153-167); renamed to a
neutral identifier, the body is a faithful translation: early return on
exponent 0, index `|exponent| - 1`, bounds check against kUnitsSize, table
chosen by sign and the iec flag. -/
def ExponentToUnit (exponent : ℤ) (iec : Bool) : String :=
  if exponent = 0 then ""
  else
    let index := if 0 < exponent then exponent - 1 else -exponent - 1
    if kUnitsSize ≤ index then ""
    else
      let arr := if 0 < exponent then (if iec then kBigIECUnits else kBigSIUnits)
                 else kSmallSIUnits
      arr.getD index.toNat ""

/-- benchmark::Counter::OneK (external enum). -/
inductive OneK : Type
  | kIs1000
  | kIs1024
deriving DecidableEq

/-- ToBinaryStringFullySpecified (lines 169-183): scale, then render the
mantissa (sign, then the absolute value streamed with stringstream default
formatting) and append the unit. -/
def ToBinaryStringFullySpecified (value : ℚ) (precision : ℤ) (one_k : OneK) : String :=
  let em := ToExponentAndMantissa value precision
    (if one_k = OneK.kIs1024 then 1024 else 1000)
  let mant := if em.mantissa < 0 then "-" ++ streamDouble (-em.mantissa)
              else streamDouble em.mantissa
  mant ++ ExponentToUnit em.exponent (one_k = OneK.kIs1024)

/-- HumanReadableNumber (lines 185-188). -/
def HumanReadableNumber (n : ℚ) (one_k : OneK) : String :=
  ToBinaryStringFullySpecified n 1 one_k

/-- Skip status of a benchmark::internal run record (external enum). -/
inductive SkipKind : Type
  | NotSkipped
  | SkippedWithError
  | SkippedWithMessage
deriving DecidableEq

/-- Run::RunType (external enum). -/
inductive RunType : Type
  | RT_Iteration
  | RT_Aggregate
deriving DecidableEq

/-- benchmark::StatisticUnit (external enum). -/
inductive StatUnit : Type
  | kTime
  | kPercentage
deriving DecidableEq

/-- benchmark::Counter as consumed by the reporter: value, scale base and
the two rate flags (external record, read-only input). -/
structure Counter : Type where
  value : ℚ
  oneK : OneK
  isRate : Bool
  invert : Bool

/-- The fields of the external Run result record read by
ConsoleReporter::PrintRunData.  `real_time`/`cpu_time` stand for
GetAdjustedRealTime()/GetAdjustedCPUTime() and `time_unit_label` for
GetTimeUnitString(result.time_unit), all computed by the external library
and consumed read-only. -/
structure Run : Type where
  benchmark_name : String
  skipped : SkipKind
  skip_message : String
  report_big_o : Bool
  report_rms : Bool
  complexity : BigO
  real_time : ℚ
  cpu_time : ℚ
  time_unit_label : String
  iterations : ℤ
  run_type : RunType
  aggregate_unit : StatUnit
  real_accumulated_time : ℚ
  cpu_accumulated_time : ℚ
  counters : List (String × Counter)
  report_label : String

/-- The reporter configuration read inside PrintRunData: the OO_Color and
OO_Tabular bits of output_options_ and name_field_width_. -/
structure OutputOptions : Type where
  color : Bool
  tabular : Bool
  name_field_width : ℕ

/-- The name-field color (line 228-229). -/
def nameColorOf (r : Run) : LogColor :=
  if r.report_big_o ∨ r.report_rms then LogColor.BLUE else LogColor.GREEN

/-- One counter field (lines 296-322): percentage rendering for
percentage aggregates, HumanReadableNumber plus rate suffix otherwise;
tabular or `name=value` layout. -/
def counterField (r : Run) (tabular : Bool) (nc : String × Counter) : LogColor × String :=
  let counterNameLen := max 10 nc.1.length
  let su :=
    if r.run_type = RunType.RT_Aggregate ∧ r.aggregate_unit = StatUnit.kPercentage then
      (genStr (100 * nc.2.value) 2, "%")
    else
      (HumanReadableNumber nc.2.value nc.2.oneK,
       if nc.2.isRate then (if nc.2.invert then "s" else "/s") else "")
  if tabular then
    (LogColor.DEFAULT, " " ++ lpad (counterNameLen - su.2.length) su.1 ++ su.2)
  else
    (LogColor.DEFAULT, " " ++ nc.1 ++ "=" ++ su.1 ++ su.2)

/-- ConsoleReporter::PrintRunData (lines 212-329), as the sequence of
(color, text) printer invocations it makes.  Output begins with the padded
name; error and skip results print one message field and the newline and
return; otherwise one of the four time layouts, the iteration count when
not in big-O/RMS mode, the counters, the optional label, and the
newline. -/
def PrintRunData (oo : OutputOptions) (r : Run) : List (LogColor × String) :=
  let nameField := (nameColorOf r, rpad (oo.name_field_width + 1) r.benchmark_name)
  if r.skipped = SkipKind.SkippedWithError then
    [nameField,
     (LogColor.RED, "ERROR OCCURRED: \x27" ++ r.skip_message ++ "\x27"),
     (LogColor.DEFAULT, "\n")]
  else if r.skipped = SkipKind.SkippedWithMessage then
    [nameField,
     (LogColor.WHITE, "SKIPPED: \x27" ++ r.skip_message ++ "\x27"),
     (LogColor.DEFAULT, "\n")]
  else
    let timeField :=
      if r.report_big_o then
        let big_o := GetBigOString r.complexity
        (LogColor.YELLOW,
          lpad 10 (genStr r.real_time 2) ++ " " ++ rpad 4 big_o ++ " "
          ++ lpad 10 (genStr r.cpu_time 2) ++ " " ++ rpad 4 big_o ++ " ")
      else if r.report_rms then
        (LogColor.YELLOW,
          lpad 10 (genStr (r.real_time * 100) 0) ++ " " ++ rpad 4 "%" ++ " "
          ++ lpad 10 (genStr (r.cpu_time * 100) 0) ++ " " ++ rpad 4 "%" ++ " ")
      else if r.run_type ≠ RunType.RT_Aggregate ∨ r.aggregate_unit = StatUnit.kTime then
        (LogColor.YELLOW,
          FormatTime r.real_time ++ " " ++ rpad 4 r.time_unit_label ++ " "
          ++ FormatTime r.cpu_time ++ " " ++ rpad 4 r.time_unit_label ++ " ")
      else
        (LogColor.YELLOW,
          lpad 10 (genStr (100 * r.real_accumulated_time) 2) ++ " " ++ rpad 4 "%" ++ " "
          ++ lpad 10 (genStr (100 * r.cpu_accumulated_time) 2) ++ " " ++ rpad 4 "%" ++ " ")
    let iterField :=
      if ¬r.report_big_o ∧ ¬r.report_rms then
        [(LogColor.CYAN, lpad 10 (intStr r.iterations))]
      else []
    let counterFields := r.counters.map (counterField r oo.tabular)
    let labelField :=
      if r.report_label ≠ "" then [(LogColor.DEFAULT, " " ++ r.report_label)] else []
    [nameField, timeField] ++ iterField ++ counterFields ++ labelField
      ++ [(LogColor.DEFAULT, "\n")]

/- ## The two printing paths and ANSI escape stripping -/

/-- The ASCII escape character that opens an ANSI sequence. -/
def escChar : Char := Char.ofNat 27

/-- The characters ColorPrint emits before the text (lines 203-206):
`ESC[0;3<code>m` when the color has a code, nothing for DEFAULT. -/
def colorSeqChars (color : LogColor) : List Char :=
  match GetAnsiColorCode color with
  | none => []
  | some code => escChar :: '[' :: '0' :: ';' :: '3' :: (code.data ++ ['m'])

/-- Rendering a printer-call sequence through ColorPrint (lines 200-208):
each text is wrapped in its start sequence and the `ESC[m` reset. -/
def renderColor : List (LogColor × String) → List Char
  | [] => []
  | cs :: t =>
    colorSeqChars cs.1 ++ cs.2.data ++ (escChar :: '[' :: 'm' :: [])
      ++ renderColor t

/-- Rendering a printer-call sequence through IgnoreColorPrint (lines
190-198): the texts alone. -/
def renderPlain : List (LogColor × String) → List Char
  | [] => []
  | cs :: t => cs.2.data ++ renderPlain t

/-- The printer lambda of PrintRunData (lines 216-226): the OO_Color bit
selects ColorPrint or IgnoreColorPrint for every field. -/
def reporterOut (oo : OutputOptions) (r : Run) : List Char :=
  if oo.color then renderColor (PrintRunData oo r)
  else renderPlain (PrintRunData oo r)

/-- Remove ANSI escape sequences: from each escape character, drop up to
and including the terminating `m`. -/
def stripAnsiAux : Bool → List Char → List Char
  | _, [] => []
  | true, ch :: t => if ch = 'm' then stripAnsiAux false t else stripAnsiAux true t
  | false, ch :: t =>
    if ch = escChar then stripAnsiAux true t else ch :: stripAnsiAux false t

def stripAnsi (l : List Char) : List Char := stripAnsiAux false l

/-- Boolean test that a text contains no escape character. -/
def escFree (s : String) : Bool := s.data.all (fun ch => ch ≠ escChar)

/- ## Specification-side definition for the unit-prefix lookup -/

/-- The unit-prefix lookup as the specification words it: index
`|exponent| - 1` into the table, bounds-checked; exponent 0 or `|exponent|`
greater than the table size yields the empty suffix; the iec flag selects
the table only for positive exponents, negative exponents always use the
SI small-unit table. -/
def exponentToUnitSpec (exponent : ℤ) (iec : Bool) : String :=
  if exponent = 0 ∨ 8 < (exponent.natAbs : ℤ) then ""
  else
    let tbl := if 0 < exponent then (if iec then kBigIECUnits else kBigSIUnits)
               else kSmallSIUnits
    tbl.getD (exponent.natAbs - 1) ""

/- ## Concrete instances used by witnesses and counterexamples -/

/-- A concrete errored result record. -/
def errRun : Run :=
  { benchmark_name := "bm_err"
    skipped := SkipKind.SkippedWithError
    skip_message := "boom"
    report_big_o := false
    report_rms := false
    complexity := BigO.oNone
    real_time := 5
    cpu_time := 5
    time_unit_label := "ns"
    iterations := 10
    run_type := RunType.RT_Iteration
    aggregate_unit := StatUnit.kTime
    real_accumulated_time := 0
    cpu_accumulated_time := 0
    counters := []
    report_label := "" }

/-- A concrete skipped result record. -/
def skipRun : Run :=
  { errRun with skipped := SkipKind.SkippedWithMessage, skip_message := "later" }

/-- A concrete ordinary result record with two counters and a label. -/
def okRun : Run :=
  { errRun with skipped := SkipKind.NotSkipped
                cpu_time := 1/2
                counters := [("bytes", ⟨2048, OneK.kIs1000, false, false⟩),
                             ("rate", ⟨512/1000000, OneK.kIs1000, true, false⟩)]
                report_label := "lbl" }

/-- A concrete reporter configuration. -/
def stdOO : OutputOptions := { color := true, tabular := false, name_field_width := 10 }

/- ## Helper lemmas for the iteration-control state machine -/

theorem runK_succ (c : ℕ → ℤ) (s : BenchmarkState) (k : ℕ) :
    runK c s (k + 1) = (keep_running c (runK c s k)).2 := rfl

theorem keep_running_finished (c : ℕ → ℤ) (s : BenchmarkState)
    (h : s.state = State.Finished) : keep_running c s = (false, s) := by
  obtain ⟨t, rem, st, b, e, it, rd⟩ := s
  dsimp only at h
  subst h
  rfl

theorem keep_running_skipped (c : ℕ → ℤ) (s : BenchmarkState)
    (h : s.state = State.Skipped) : keep_running c s = (false, s) := by
  obtain ⟨t, rem, st, b, e, it, rd⟩ := s
  dsimp only at h
  subst h
  rfl

theorem keep_running_notStarted_true (c : ℕ → ℤ) (s : BenchmarkState)
    (h : s.state = State.NotStarted) (hr : 0 < s.remaining_iterations) :
    keep_running c s =
      (true, { s with state := State.Started
                      remaining_iterations := s.remaining_iterations - 1
                      begin_t := c s.reads
                      reads := s.reads + 1 }) := by
  obtain ⟨t, rem, st, b, e, it, rd⟩ := s
  dsimp only at h hr
  subst h
  unfold keep_running stepCommon
  dsimp only
  rw [if_pos hr]

theorem keep_running_notStarted_false (c : ℕ → ℤ) (s : BenchmarkState)
    (h : s.state = State.NotStarted) (hr : ¬0 < s.remaining_iterations) :
    keep_running c s =
      (false, { s with state := State.Finished
                       remaining_iterations := s.remaining_iterations - 1
                       begin_t := c s.reads
                       reads := s.reads + 1 }) := by
  obtain ⟨t, rem, st, b, e, it, rd⟩ := s
  dsimp only at h hr
  subst h
  unfold keep_running stepCommon
  dsimp only
  rw [if_neg hr]

theorem keep_running_started_true (c : ℕ → ℤ) (s : BenchmarkState)
    (h : s.state = State.Started) (hr : 0 < s.remaining_iterations) :
    keep_running c s =
      (true, { s with end_t := c s.reads
                      iterations_time := s.iterations_time ++ [c s.reads - s.begin_t]
                      remaining_iterations := s.remaining_iterations - 1
                      begin_t := c (s.reads + 1)
                      reads := s.reads + 1 + 1 }) := by
  obtain ⟨t, rem, st, b, e, it, rd⟩ := s
  dsimp only at h hr
  subst h
  unfold keep_running stepCommon
  dsimp only
  rw [if_pos hr]

theorem keep_running_started_false (c : ℕ → ℤ) (s : BenchmarkState)
    (h : s.state = State.Started) (hr : ¬0 < s.remaining_iterations) :
    keep_running c s =
      (false, { s with end_t := c s.reads
                       iterations_time := s.iterations_time ++ [c s.reads - s.begin_t]
                       remaining_iterations := s.remaining_iterations - 1
                       state := State.Finished
                       begin_t := c (s.reads + 1)
                       reads := s.reads + 1 + 1 }) := by
  obtain ⟨t, rem, st, b, e, it, rd⟩ := s
  dsimp only at h hr
  subst h
  unfold keep_running stepCommon
  dsimp only
  rw [if_neg hr]

/-- Finished and Skipped absorb: a terminal state is returned verbatim. -/
theorem keep_running_terminal (c : ℕ → ℤ) (s : BenchmarkState)
    (h : s.state = State.Finished ∨ s.state = State.Skipped) :
    keep_running c s = (false, s) := by
  rcases h with h | h
  · exact keep_running_finished c s h
  · exact keep_running_skipped c s h

/-- A false return leaves the machine in a terminal state. -/
theorem result_false_terminal (c : ℕ → ℤ) (s : BenchmarkState)
    (h : (keep_running c s).1 = false) :
    (keep_running c s).2.state = State.Finished ∨
      (keep_running c s).2.state = State.Skipped := by
  obtain ⟨t, rem, st, b, e, it, rd⟩ := s
  cases st
  case NotStarted =>
    by_cases hr : 0 < rem
    · rw [keep_running_notStarted_true c _ rfl hr] at h
      exact absurd h (by simp)
    · rw [keep_running_notStarted_false c _ rfl hr]
      exact Or.inl rfl
  case Started =>
    by_cases hr : 0 < rem
    · rw [keep_running_started_true c _ rfl hr] at h
      exact absurd h (by simp)
    · rw [keep_running_started_false c _ rfl hr]
      exact Or.inl rfl
  case Finished =>
    rw [keep_running_finished c _ rfl]
    exact Or.inl rfl
  case Skipped =>
    rw [keep_running_skipped c _ rfl]
    exact Or.inr rfl

/-- A terminal state never changes again, under any clock. -/
theorem runK_terminal (c : ℕ → ℤ) (s : BenchmarkState)
    (h : s.state = State.Finished ∨ s.state = State.Skipped) (k : ℕ) :
    runK c s k = s := by
  induction k with
  | zero => rfl
  | succ k ih => rw [runK_succ, ih, keep_running_terminal c s h]

/-- Closed-form characterisation of the state after `k` keep_running()
calls, for `1 ≤ k ≤ n`: the machine is Started, `n - k` iterations remain,
`2k - 1` clock reads have happened, the open interval began at the last
read, and the `k - 1` recorded samples are the differences of consecutive
read pairs. -/
theorem runK_init_spec (c : ℕ → ℤ) (n : ℕ) :
    ∀ k, 1 ≤ k → k ≤ n →
    ∃ E, runK c (BenchmarkState.init (n : ℤ)) k =
      { total_iterations := (n : ℤ)
        remaining_iterations := (n : ℤ) - (k : ℤ)
        state := State.Started
        begin_t := c (2 * k - 2)
        end_t := E
        iterations_time := (List.range (k - 1)).map (fun j => c (2 * j + 1) - c (2 * j))
        reads := 2 * k - 1 } := by
  intro k
  induction k with
  | zero => intro h1 _; exact absurd h1 (by omega)
  | succ k ih =>
    intro _ h2
    rcases Nat.eq_zero_or_pos k with rfl | hk
    · refine ⟨0, ?_⟩
      rw [runK_succ]
      show (keep_running c (BenchmarkState.init (n : ℤ))).2 = _
      rw [keep_running_notStarted_true c _ rfl (by dsimp [BenchmarkState.init]; omega)]
      simp [BenchmarkState.init]
    · obtain ⟨E, hE⟩ := ih hk (by omega)
      refine ⟨c (2 * k - 1), ?_⟩
      rw [runK_succ, hE,
        keep_running_started_true c _ rfl (by dsimp only; omega)]
      dsimp only
      have i1 : 2 * k - 1 + 1 = 2 * k := by omega
      have i2 : 2 * (k + 1) - 2 = 2 * k := by omega
      have i3 : 2 * (k + 1) - 1 = 2 * k + 1 := by omega
      have i4 : k + 1 - 1 = k := rfl
      have i5 : 2 * k - 1 = 2 * (k - 1) + 1 := by omega
      have i6 : 2 * k - 2 = 2 * (k - 1) := by omega
      have i7 : k - 1 + 1 = k := by omega
      rw [i1, i2, i3, i4, i5, i6]
      simp only [BenchmarkState.mk.injEq, and_true, true_and]
      constructor
      · push_cast; ring
      · conv_rhs => rw [← i7, List.range_succ]
        rw [List.map_append, List.map_singleton]

lemma init_remaining_pos (n : ℕ) (hn : 0 < n) :
    0 < (BenchmarkState.init (n : ℤ)).remaining_iterations := by
  dsimp [BenchmarkState.init]
  exact_mod_cast hn

/-- C1: for a fresh BenchmarkState(N) with N > 0 and a monotone steady
clock, keep_running() returns true on exactly the first N calls and false
on the (N+1)-th, exactly N elapsed-time samples are recorded when that
call returns, and every sample is nonnegative. -/
theorem keep_running_iteration_protocol (n : ℕ) (c : ℕ → ℤ)
    (hn : 0 < n) (hc : Monotone c) :
    (∀ k, k < n → callResult c (BenchmarkState.init (n : ℤ)) k = true) ∧
    callResult c (BenchmarkState.init (n : ℤ)) n = false ∧
    (runK c (BenchmarkState.init (n : ℤ)) (n + 1)).iterations_time.length = n ∧
    (∀ x ∈ (runK c (BenchmarkState.init (n : ℤ)) (n + 1)).iterations_time, 0 ≤ x) := by
  obtain ⟨E, hE⟩ := runK_init_spec c n n (by omega) le_rfl
  have hlast := keep_running_started_false c (runK c (BenchmarkState.init (n : ℤ)) n)
    (by rw [hE]) (by rw [hE]; dsimp only; omega)
  refine ⟨?_, ?_, ?_, ?_⟩
  · intro k hk
    rcases Nat.eq_zero_or_pos k with rfl | hk1
    · unfold callResult
      show (keep_running c (BenchmarkState.init (n : ℤ))).1 = true
      rw [keep_running_notStarted_true c _ rfl (init_remaining_pos n hn)]
    · obtain ⟨E2, hE2⟩ := runK_init_spec c n k hk1 (le_of_lt hk)
      unfold callResult
      rw [hE2, keep_running_started_true c _ rfl (by dsimp only; omega)]
  · unfold callResult
    rw [hlast]
  · rw [runK_succ, hlast, hE]
    dsimp only
    rw [List.length_append, List.length_map, List.length_range]
    simp
    omega
  · intro x hx
    rw [runK_succ, hlast, hE] at hx
    dsimp only at hx
    rw [List.mem_append] at hx
    rcases hx with hx | hx
    · rw [List.mem_map] at hx
      obtain ⟨j, _, rfl⟩ := hx
      have := hc (show 2 * j ≤ 2 * j + 1 by omega)
      omega
    · rw [List.mem_singleton] at hx
      subst hx
      have := hc (show 2 * n - 2 ≤ 2 * n - 1 by omega)
      omega

/-- The identity clock is monotone. -/
lemma cNat_mono : Monotone cNat := by
  intro a b h
  simp only [cNat]
  exact_mod_cast h

theorem keep_running_iteration_protocol_witness :
    0 < 2 ∧ Monotone cNat ∧
      callResult cNat (BenchmarkState.init ((2 : ℕ) : ℤ)) 2 = false :=
  ⟨by decide, cNat_mono,
   (keep_running_iteration_protocol 2 cNat (by decide) cNat_mono).2.1⟩

/-- C2: once keep_running() has returned false, the state is terminal:
under any later clock behaviour every subsequent call leaves the state
bit-for-bit unchanged (so no timing sample is appended) and returns false
again. -/
theorem keep_running_false_absorbing (c c2 : ℕ → ℤ) (s : BenchmarkState)
    (h : (keep_running c s).1 = false) (k : ℕ) :
    runK c2 (keep_running c s).2 k = (keep_running c s).2 ∧
    (runK c2 (keep_running c s).2 k).iterations_time
      = (keep_running c s).2.iterations_time ∧
    callResult c2 (keep_running c s).2 k = false := by
  have hterm := result_false_terminal c s h
  have habs := runK_terminal c2 (keep_running c s).2 hterm
  refine ⟨habs k, by rw [habs k], ?_⟩
  unfold callResult
  rw [habs k, keep_running_terminal c2 _ hterm]

theorem keep_running_false_absorbing_witness :
    (keep_running cNat (BenchmarkState.init 0)).1 = false ∧
    runK cNat (keep_running cNat (BenchmarkState.init 0)).2 3
      = (keep_running cNat (BenchmarkState.init 0)).2 ∧
    callResult cNat (keep_running cNat (BenchmarkState.init 0)).2 3 = false :=
  ⟨by decide,
   (keep_running_false_absorbing cNat cNat (BenchmarkState.init 0) (by decide) 3).1,
   (keep_running_false_absorbing cNat cNat (BenchmarkState.init 0) (by decide) 3).2.2⟩

/-- One keep_running() step preserves the reachable-state invariant:
remaining never exceeds total, equals -1 in the Finished state, is
nonnegative before Finished, and Skipped is never entered. -/
lemma step_invariant (c : ℕ → ℤ) (s : BenchmarkState)
    (h2 : s.remaining_iterations ≤ s.total_iterations)
    (h3 : s.state = State.Finished → s.remaining_iterations = -1)
    (h4 : s.state ≠ State.Finished → 0 ≤ s.remaining_iterations)
    (h5 : s.state ≠ State.Skipped) :
    (keep_running c s).2.remaining_iterations ≤ (keep_running c s).2.total_iterations ∧
    ((keep_running c s).2.state = State.Finished →
      (keep_running c s).2.remaining_iterations = -1) ∧
    ((keep_running c s).2.state ≠ State.Finished →
      0 ≤ (keep_running c s).2.remaining_iterations) ∧
    (keep_running c s).2.state ≠ State.Skipped := by
  obtain ⟨t, rem, st, b, e, it, rd⟩ := s
  dsimp only at h2 h3 h4 h5 ⊢
  cases st
  case NotStarted =>
    have hge : 0 ≤ rem := h4 (by simp)
    by_cases hr : 0 < rem
    · rw [keep_running_notStarted_true c _ rfl hr]
      exact ⟨by dsimp only; omega, by simp, by dsimp only; omega, by simp⟩
    · rw [keep_running_notStarted_false c _ rfl hr]
      exact ⟨by dsimp only; omega, by dsimp only; omega, by simp, by simp⟩
  case Started =>
    have hge : 0 ≤ rem := h4 (by simp)
    by_cases hr : 0 < rem
    · rw [keep_running_started_true c _ rfl hr]
      exact ⟨by dsimp only; omega, by simp, by dsimp only; omega, by simp⟩
    · rw [keep_running_started_false c _ rfl hr]
      exact ⟨by dsimp only; omega, by dsimp only; omega, by simp, by simp⟩
  case Finished =>
    rw [keep_running_finished c _ rfl]
    exact ⟨h2, h3, h4, h5⟩
  case Skipped =>
    exact absurd rfl h5

/-- The reachable-state invariant holds after any number of calls. -/
lemma runK_invariant (c : ℕ → ℤ) (n : ℤ) (hn : 0 ≤ n) (k : ℕ) :
    (runK c (BenchmarkState.init n) k).remaining_iterations
      ≤ (runK c (BenchmarkState.init n) k).total_iterations ∧
    ((runK c (BenchmarkState.init n) k).state = State.Finished →
      (runK c (BenchmarkState.init n) k).remaining_iterations = -1) ∧
    ((runK c (BenchmarkState.init n) k).state ≠ State.Finished →
      0 ≤ (runK c (BenchmarkState.init n) k).remaining_iterations) ∧
    (runK c (BenchmarkState.init n) k).state ≠ State.Skipped := by
  induction k with
  | zero =>
    exact ⟨le_refl _, by simp [runK, BenchmarkState.init], fun _ => hn,
      by simp [runK, BenchmarkState.init]⟩
  | succ k ih =>
    rw [runK_succ]
    exact step_invariant c _ ih.1 ih.2.1 ih.2.2.1 ih.2.2.2

/-- C3 counterexample: with iteration count 1, after the second
keep_running() call the state is Finished and remaining_iterations is
negative (namely -1), contradicting the claim that it is never negative
once Finished. -/
theorem remaining_negative_once_finished :
    (runK cNat (BenchmarkState.init ((1 : ℕ) : ℤ)) 2).state = State.Finished ∧
    (runK cNat (BenchmarkState.init ((1 : ℕ) : ℤ)) 2).remaining_iterations < 0 := by
  decide

/-- C3 amended: for a BenchmarkState constructed with positive iteration
count and any call sequence, remaining_iterations never exceeds
total_iterations, is nonnegative while the state has not reached Finished
and equals -1 once it has, and the state tag never leaves Finished or
Skipped once reached. -/
theorem remaining_iterations_invariant (n : ℕ) (c : ℕ → ℤ) (_hn : 0 < n) (k : ℕ) :
    (runK c (BenchmarkState.init (n : ℤ)) k).remaining_iterations
      ≤ (runK c (BenchmarkState.init (n : ℤ)) k).total_iterations ∧
    ((runK c (BenchmarkState.init (n : ℤ)) k).state = State.Finished →
      (runK c (BenchmarkState.init (n : ℤ)) k).remaining_iterations = -1) ∧
    ((runK c (BenchmarkState.init (n : ℤ)) k).state ≠ State.Finished →
      0 ≤ (runK c (BenchmarkState.init (n : ℤ)) k).remaining_iterations) ∧
    (∀ (s : BenchmarkState) (c2 : ℕ → ℤ),
      (s.state = State.Finished → (keep_running c2 s).2.state = State.Finished) ∧
      (s.state = State.Skipped → (keep_running c2 s).2.state = State.Skipped)) := by
  have inv := runK_invariant c (n : ℤ) (by exact_mod_cast Nat.zero_le n) k
  refine ⟨inv.1, inv.2.1, inv.2.2.1, ?_⟩
  intro s c2
  constructor
  · intro h
    rw [keep_running_finished c2 s h]
    exact h
  · intro h
    rw [keep_running_skipped c2 s h]
    exact h

theorem remaining_iterations_invariant_witness :
    0 < 3 ∧
    (runK cNat (BenchmarkState.init ((3 : ℕ) : ℤ)) 2).remaining_iterations
      ≤ (runK cNat (BenchmarkState.init ((3 : ℕ) : ℤ)) 2).total_iterations :=
  ⟨by decide, (remaining_iterations_invariant 3 cNat (by decide) 2).1⟩

/-- C4 counterexample: with iteration count 1, the second keep_running()
call has pre-decrement remaining_iterations 0 ≤ 0, returns false and
moves to Finished, yet the begin timestamp is NOT left unchanged: the
final clock read overwrites it (0 before the call, 2 after), refuting the
claim that no further clock read updates the begin timestamp. -/
theorem finishing_call_updates_begin :
    (runK cNat (BenchmarkState.init ((1 : ℕ) : ℤ)) 1).remaining_iterations ≤ 0 ∧
    callResult cNat (BenchmarkState.init ((1 : ℕ) : ℤ)) 1 = false ∧
    (runK cNat (BenchmarkState.init ((1 : ℕ) : ℤ)) 2).state = State.Finished ∧
    (runK cNat (BenchmarkState.init ((1 : ℕ) : ℤ)) 1).begin_t = 0 ∧
    (runK cNat (BenchmarkState.init ((1 : ℕ) : ℤ)) 2).begin_t = 2 := by
  decide

/-- C4 amended: on the keep_running() call whose pre-decrement
remaining_iterations is ≤ 0 (from NotStarted or Started), the state
becomes Finished and the call returns false; the begin timestamp is
overwritten by one final clock read, but no timing interval is ever
closed from it: no subsequent call appends a sample. -/
theorem finishing_call_behaviour (c : ℕ → ℤ) (s : BenchmarkState)
    (h1 : s.state = State.NotStarted ∨ s.state = State.Started)
    (h2 : s.remaining_iterations ≤ 0) :
    (keep_running c s).1 = false ∧
    (keep_running c s).2.state = State.Finished ∧
    (keep_running c s).2.begin_t = c ((keep_running c s).2.reads - 1) ∧
    (∀ (c2 : ℕ → ℤ) (k : ℕ),
      (runK c2 (keep_running c s).2 k).iterations_time
        = (keep_running c s).2.iterations_time) := by
  have hr : ¬0 < s.remaining_iterations := by omega
  have hfin :
      (keep_running c s).1 = false ∧
      (keep_running c s).2.state = State.Finished ∧
      (keep_running c s).2.begin_t = c ((keep_running c s).2.reads - 1) := by
    rcases h1 with h | h
    · rw [keep_running_notStarted_false c s h hr]
      exact ⟨rfl, rfl, by dsimp only; rw [Nat.add_sub_cancel]⟩
    · rw [keep_running_started_false c s h hr]
      exact ⟨rfl, rfl, by dsimp only; rw [Nat.add_sub_cancel]⟩
  refine ⟨hfin.1, hfin.2.1, hfin.2.2, ?_⟩
  intro c2 k
  rw [runK_terminal c2 _ (Or.inl hfin.2.1) k]

theorem finishing_call_behaviour_witness :
    ((BenchmarkState.init 0).state = State.NotStarted ∨
      (BenchmarkState.init 0).state = State.Started) ∧
    (BenchmarkState.init 0).remaining_iterations ≤ 0 ∧
    (keep_running cNat (BenchmarkState.init 0)).1 = false ∧
    (keep_running cNat (BenchmarkState.init 0)).2.state = State.Finished :=
  ⟨Or.inl rfl, by decide,
   (finishing_call_behaviour cNat (BenchmarkState.init 0) (Or.inl rfl) (by decide)).1,
   (finishing_call_behaviour cNat (BenchmarkState.init 0) (Or.inl rfl) (by decide)).2.1⟩

/-- A step never enters the Skipped state. -/
lemma keep_running_not_skipped (c : ℕ → ℤ) (s : BenchmarkState)
    (h : s.state ≠ State.Skipped) : (keep_running c s).2.state ≠ State.Skipped := by
  obtain ⟨t, rem, st, b, e, it, rd⟩ := s
  dsimp only at h
  cases st
  case NotStarted =>
    by_cases hr : 0 < rem
    · rw [keep_running_notStarted_true c _ rfl hr]; simp
    · rw [keep_running_notStarted_false c _ rfl hr]; simp
  case Started =>
    by_cases hr : 0 < rem
    · rw [keep_running_started_true c _ rfl hr]; simp
    · rw [keep_running_started_false c _ rfl hr]; simp
  case Finished => rw [keep_running_finished c _ rfl]; simp
  case Skipped => exact absurd rfl h

/-- C10: the Skipped state is unreachable through the public interface:
from any freshly constructed BenchmarkState, after any number of
keep_running() calls under any clock, the state tag is NotStarted,
Started or Finished - never Skipped. -/
theorem skipped_unreachable (iteration_count : ℤ) (c : ℕ → ℤ) (k : ℕ) :
    (runK c (BenchmarkState.init iteration_count) k).state = State.NotStarted ∨
    (runK c (BenchmarkState.init iteration_count) k).state = State.Started ∨
    (runK c (BenchmarkState.init iteration_count) k).state = State.Finished := by
  have h : ∀ m, (runK c (BenchmarkState.init iteration_count) m).state ≠ State.Skipped := by
    intro m
    induction m with
    | zero => simp [runK, BenchmarkState.init]
    | succ m ih =>
      rw [runK_succ]
      exact keep_running_not_skipped c _ ih
  rcases hs : (runK c (BenchmarkState.init iteration_count) k).state with _ | _ | _ | _
  · exact Or.inl rfl
  · exact Or.inr (Or.inl rfl)
  · exact Or.inr (Or.inr rfl)
  · exact absurd hs (h k)

/-- C5: FormatTime renders a right-aligned 10-character field with
magnitude-selected precision - 3 decimals below 1, 2 on [1,10), 1 on
[10,100), 0 on [100, 9999999999], scientific with 4-digit mantissa
precision above - checked on the five specified examples and on each
branch boundary. -/
theorem format_time_examples :
    FormatTime (1/2) = "     0.500" ∧
    FormatTime 5 = "      5.00" ∧
    FormatTime 50 = "      50.0" ∧
    FormatTime 500 = "       500" ∧
    FormatTime (10 ^ 12) = "1.0000e+12" ∧
    FormatTime 1 = "      1.00" ∧
    FormatTime 10 = "      10.0" ∧
    FormatTime 100 = "       100" ∧
    FormatTime 9999999999 = "9999999999" ∧
    FormatTime 10000000000 = "1.0000e+10" ∧
    (FormatTime (1/2)).length = 10 ∧
    (FormatTime (10 ^ 12)).length = 10 := by
  with_unfolding_all decide

/-- First step of the positive-power scaling loop: if one division by the
base already lands at or below the threshold, it is returned with the
current exponent. -/
lemma bigLoopSI_first (one_k big v : ℚ) (fuel : ℕ) (i : ℤ) (h : v / one_k ≤ big) :
    bigLoopSI one_k big (fuel + 1) v i = some (v / one_k, i) := by
  simp only [bigLoopSI]
  rw [if_pos h]

/-- C6: a non-negative value exactly equal to big_threshold =
adjusted_threshold * base - 1 is emitted unscaled with exponent 0, while
big_threshold + 1 is divided by the base once and emitted with exponent 1
(the first prefix), its mantissa adjusted_threshold being ≤ big_threshold. -/
theorem to_exponent_mantissa_boundary (p : ℤ) (one_k adj big : ℚ)
    (hk : 2 ≤ one_k) (hadj : adj = max 1 (zpow10 (-p))) (hbig : big = adj * one_k - 1) :
    ToExponentAndMantissa big p one_k = ⟨big, 0⟩ ∧
    ToExponentAndMantissa (big + 1) p one_k = ⟨adj, 1⟩ ∧
    adj ≤ big := by
  have h1 : (1:ℚ) ≤ adj := by rw [hadj]; exact le_max_left _ _
  have hk0 : (0:ℚ) < one_k := by linarith
  have h2 : adj * 2 ≤ adj * one_k := mul_le_mul_of_nonneg_left hk (by linarith)
  have hbs : adj ≤ big := by rw [hbig]; linarith
  have hbpos : (0:ℚ) < big := by linarith
  have hdiv : (big + 1) / one_k = adj := by
    rw [hbig]
    field_simp
  refine ⟨?_, ?_, hbs⟩
  · simp only [ToExponentAndMantissa]
    rw [← hadj, ← hbig]
    simp only [if_neg (show ¬big < (0:ℚ) by linarith)]
    rw [if_neg (lt_irrefl big)]
    rw [if_neg (not_lt.mpr hbs)]
  · simp only [ToExponentAndMantissa]
    rw [← hadj, ← hbig]
    rw [if_neg (by linarith : ¬big + 1 < (0:ℚ))]
    rw [if_pos (by linarith : big < big + 1)]
    rw [show (8:ℕ) = 7 + 1 from rfl]
    rw [bigLoopSI_first one_k big (big + 1) 7 1 (by rw [hdiv]; exact hbs)]
    dsimp only
    rw [if_neg (by linarith : ¬big + 1 < (0:ℚ)), hdiv]

theorem to_exponent_mantissa_boundary_witness :
    (2:ℚ) ≤ 1000 ∧
    ToExponentAndMantissa 999 1 1000 = ⟨999, 0⟩ ∧
    ToExponentAndMantissa (999 + 1) 1 1000 = ⟨1, 1⟩ ∧
    (1:ℚ) ≤ 999 := by
  have h := to_exponent_mantissa_boundary 1 1000 1 999 (by norm_num)
    (by with_unfolding_all decide) (by norm_num)
  exact ⟨by norm_num, h.1, h.2.1, h.2.2⟩

/-- C7: the translated ExponentToPrefix lookup coincides with the
specification's description - index |exponent| - 1 into the table chosen
by sign and the iec flag, bounds-checked, with exponent 0 or |exponent|
greater than the table size yielding the empty suffix, and negative
exponents always using the SI small-unit table regardless of base. -/
theorem exponent_unit_lookup_spec (e : ℤ) (iec : Bool) :
    ExponentToUnit e iec = exponentToUnitSpec e iec := by
  unfold ExponentToUnit exponentToUnitSpec kUnitsSize
  by_cases h0 : e = 0
  · simp [h0]
  · simp only [h0, false_or, if_false]
    by_cases hpos : 0 < e
    · simp only [if_pos hpos]
      by_cases hb : (8:ℤ) ≤ e - 1
      · have hyes : (8:ℤ) < (e.natAbs : ℤ) := by omega
        rw [if_pos hb, if_pos hyes]
      · have hno : ¬(8:ℤ) < (e.natAbs : ℤ) := by omega
        have ht : (e - 1).toNat = e.natAbs - 1 := by omega
        rw [if_neg hb, if_neg hno, ht]
    · simp only [if_neg hpos]
      by_cases hb : (8:ℤ) ≤ -e - 1
      · have hyes : (8:ℤ) < (e.natAbs : ℤ) := by omega
        rw [if_pos hb, if_pos hyes]
      · have hno : ¬(8:ℤ) < (e.natAbs : ℤ) := by omega
        have ht : (-e - 1).toNat = e.natAbs - 1 := by omega
        rw [if_neg hb, if_neg hno, ht]

/-- C8: for an errored or skipped result the console reporter emits
exactly three fields - the padded name, one message field (red for an
error, white for a skip) and the line terminator - with no time fields,
iteration count, counters or label. -/
theorem reporter_skip_short_circuit (oo : OutputOptions) (r : Run)
    (h : r.skipped = SkipKind.SkippedWithError ∨ r.skipped = SkipKind.SkippedWithMessage) :
    PrintRunData oo r =
      [(nameColorOf r, rpad (oo.name_field_width + 1) r.benchmark_name),
       (if r.skipped = SkipKind.SkippedWithError then LogColor.RED else LogColor.WHITE,
        (if r.skipped = SkipKind.SkippedWithError then "ERROR OCCURRED: \x27"
         else "SKIPPED: \x27") ++ r.skip_message ++ "\x27"),
       (LogColor.DEFAULT, "\n")] := by
  rcases h with h | h <;> simp [PrintRunData, h]

theorem reporter_skip_short_circuit_witness :
    (errRun.skipped = SkipKind.SkippedWithError ∨
      errRun.skipped = SkipKind.SkippedWithMessage) ∧
    PrintRunData stdOO errRun =
      [(nameColorOf errRun, rpad (stdOO.name_field_width + 1) errRun.benchmark_name),
       (if errRun.skipped = SkipKind.SkippedWithError then LogColor.RED else LogColor.WHITE,
        (if errRun.skipped = SkipKind.SkippedWithError then "ERROR OCCURRED: \x27"
         else "SKIPPED: \x27") ++ errRun.skip_message ++ "\x27"),
       (LogColor.DEFAULT, "\n")] :=
  ⟨Or.inl rfl, reporter_skip_short_circuit stdOO errRun (Or.inl rfl)⟩

/-- Escape-free text passes through the ANSI stripper unchanged. -/
lemma stripAux_text (t rest : List Char) (h : t.all (fun ch => ch ≠ escChar) = true) :
    stripAnsiAux false (t ++ rest) = t ++ stripAnsiAux false rest := by
  induction t with
  | nil => rfl
  | cons a t ih =>
    simp only [List.all_cons, Bool.and_eq_true, decide_eq_true_eq] at h
    simp only [List.cons_append, stripAnsiAux]
    rw [if_neg h.1]
    show a :: stripAnsiAux false (t ++ rest) = a :: (t ++ stripAnsiAux false rest)
    rw [ih (by simpa using h.2)]

/-- The stripper removes a color start sequence entirely. -/
lemma strip_color_seq (color : LogColor) (rest : List Char) :
    stripAnsiAux false (colorSeqChars color ++ rest) = stripAnsiAux false rest := by
  cases color <;> rfl

/-- The stripper removes the reset sequence entirely. -/
lemma strip_reset (rest : List Char) :
    stripAnsiAux false (escChar :: '[' :: 'm' :: rest) = stripAnsiAux false rest := rfl

/-- Stripping the colored rendering of a printer-call sequence whose
texts are escape-free yields the plain rendering. -/
lemma strip_render (evs : List (LogColor × String))
    (h : ∀ e ∈ evs, escFree e.2 = true) :
    stripAnsiAux false (renderColor evs) = renderPlain evs := by
  induction evs with
  | nil => rfl
  | cons e t ih =>
    have he : e.2.data.all (fun ch => ch ≠ escChar) = true := h e (by simp)
    simp only [renderColor, renderPlain, List.append_assoc]
    rw [strip_color_seq, stripAux_text _ _ he]
    simp only [List.cons_append, List.nil_append]
    rw [strip_reset, ih (fun x hx => h x (by simp [hx]))]

/-- C9: for any result record whose printed texts contain no escape
character, the output of the color-enabled printing path with all ANSI
escape sequences removed is exactly the output of the color-disabled
path - the two paths differ only in escape sequences. -/
theorem color_plain_equivalence (oo : OutputOptions) (r : Run)
    (h : ∀ e ∈ PrintRunData oo r, escFree e.2 = true) :
    stripAnsi (reporterOut { oo with color := true } r)
      = reporterOut { oo with color := false } r := by
  obtain ⟨col, tab, w⟩ := oo
  show stripAnsiAux false (renderColor (PrintRunData ⟨true, tab, w⟩ r))
      = renderPlain (PrintRunData ⟨false, tab, w⟩ r)
  have hpr1 : PrintRunData ⟨true, tab, w⟩ r = PrintRunData ⟨col, tab, w⟩ r := rfl
  have hpr2 : PrintRunData ⟨false, tab, w⟩ r = PrintRunData ⟨col, tab, w⟩ r := rfl
  rw [hpr1, hpr2]
  exact strip_render _ h

theorem color_plain_equivalence_witness :
    (∀ e ∈ PrintRunData stdOO okRun, escFree e.2 = true) ∧
    stripAnsi (reporterOut { stdOO with color := true } okRun)
      = reporterOut { stdOO with color := false } okRun :=
  ⟨by with_unfolding_all decide,
   color_plain_equivalence stdOO okRun (by with_unfolding_all decide)⟩
